import Mathlib

/-!
Shallow embedding of the retry / circuit-breaker utility of
`gen-ai-playgrounds/amazon_bedrock/demos/podcast/main.py`
(class `CircuitBreaker` and `retry_with_backoff`).

Modelling decisions:
* Wall-clock timestamps (`datetime.now()`) and durations are rationals
  (seconds).  `timedelta(seconds=recovery_timeout)` comparison becomes a
  plain comparison of rationals.
* Python exceptions become an explicit error type: failures of the wrapped
  operation carry a value of a type parameter `E`; the two errors that
  `retry_with_backoff` itself raises (the circuit-open `Exception` and the
  `TypeError` from executing `raise None` when the loop body never ran) are
  separate constructors.
* The wrapped operation `func` is modelled as `op : Nat -> Except E A`
  giving the outcome of its (zero-based) i-th invocation.
* `datetime.now()` readings are supplied from outside: `now` for the
  admission check at the top of `retry_with_backoff`, and `times i` for the
  reading taken by `record_failure` during attempt `i`.
-/

/-- The `state` field of `CircuitBreaker`: the Python string constants
`CLOSED`, `OPEN`, `HALF_OPEN`. -/
inductive CBState : Type
  | closed
  | opened
  | halfOpen
deriving DecidableEq, Repr

/-- The mutable breaker object of `main.py` lines 204-238.  Fields mirror
the attributes set in `__init__`. -/
structure CircuitBreaker : Type where
  failure_threshold : ℕ
  recovery_timeout : ℚ
  failure_count : ℕ
  last_failure_time : Option ℚ
  state : CBState
deriving DecidableEq, Repr

/-- `CircuitBreaker.__init__`: `failure_count = 0`, `last_failure_time = None`,
`state = "CLOSED"`. -/
def initial_breaker (failure_threshold : ℕ) (recovery_timeout : ℚ) :
    CircuitBreaker :=
  ⟨failure_threshold, recovery_timeout, 0, none, CBState.closed⟩

/-- `CircuitBreaker.can_execute` (lines 214-225), with `datetime.now()`
passed in as `now`.  Returns the boolean result together with the breaker
after the call (the lazy `OPEN -> HALF_OPEN` transition is the only
mutation). -/
def can_execute (now : ℚ) (cb : CircuitBreaker) : Bool × CircuitBreaker :=
  match cb.state with
  | CBState.closed => (true, cb)
  | CBState.opened =>
    match cb.last_failure_time with
    | some t =>
      if now - t > cb.recovery_timeout then
        (true, { cb with state := CBState.halfOpen })
      else
        (false, cb)
    | none => (false, cb)
  | CBState.halfOpen => (true, cb)

/-- `CircuitBreaker.record_success` (lines 227-230). -/
def record_success (cb : CircuitBreaker) : CircuitBreaker :=
  { cb with failure_count := 0, state := CBState.closed }

/-- `CircuitBreaker.record_failure` (lines 232-238), with `datetime.now()`
passed in as `now`. -/
def record_failure (now : ℚ) (cb : CircuitBreaker) : CircuitBreaker :=
  let cb1 : CircuitBreaker :=
    { cb with
        failure_count := cb.failure_count + 1,
        last_failure_time := some now }
  if cb1.failure_count ≥ cb1.failure_threshold then
    { cb1 with state := CBState.opened }
  else
    cb1

/-- Errors raised by `retry_with_backoff` itself, as opposed to values of
type `E` raised by the wrapped operation:
* `circuitOpen` is the
  `Exception` raised on line 255 when the breaker refuses execution;
* `opError e` is the re-raise of `last_exception = e` (line 282, or the
  `break` at line 275 followed by line 282);
* `raiseNone` is the `TypeError` produced by `raise last_exception` when
  `last_exception` is still `None` because the `for` loop body never ran
  (only possible when `max_retries < 0`). -/
inductive RetryError (E : Type) : Type
  | circuitOpen
  | opError (e : E)
  | raiseNone
deriving DecidableEq, Repr

/-- Observable outcome of one call to `retry_with_backoff`: the returned
value or raised error, the number of times `func` was invoked, the list of
delays slept between attempts (in order), and the breaker object after the
call (`none` when no breaker was supplied). -/
structure RetryResult (E A : Type) : Type where
  result : Except (RetryError E) A
  calls : ℕ
  delays : List ℚ
  breaker : Option CircuitBreaker
deriving Repr

/-- `raise last_exception` at line 282. -/
def raise_last {E A : Type} (lastExc : Option E) : Except (RetryError E) A :=
  match lastExc with
  | some e => Except.error (RetryError.opError e)
  | none => Except.error RetryError.raiseNone

/-- Line 278: `delay = min(base_delay * (backoff_factor ** attempt), max_delay)`. -/
def backoff_delay (base_delay backoff_factor max_delay : ℚ) (attempt : ℕ) : ℚ :=
  min (base_delay * backoff_factor ^ attempt) max_delay

/-- The `for attempt in range(max_retries + 1)` loop of `retry_with_backoff`
(lines 257-282), fuelled by the number of remaining iterations.  `attempt`
is the current zero-based index, `lastExc` the current `last_exception`,
`cb` the breaker (already past the admission check).  `calls` and `delays`
count from this point on. -/
def retryAux {E A : Type} (op : ℕ → Except E A) (times : ℕ → ℚ)
    (max_retries : ℤ) (base_delay max_delay backoff_factor : ℚ)
    (attempt : ℕ) (fuel : ℕ) (lastExc : Option E)
    (cb : Option CircuitBreaker) : RetryResult E A :=
  match fuel with
  | 0 => ⟨raise_last lastExc, 0, [], cb⟩
  | fuel1 + 1 =>
    match op attempt with
    | Except.ok a => ⟨Except.ok a, 1, [], cb.map record_success⟩
    | Except.error e =>
      let cb1 := cb.map (record_failure (times attempt))
      if (attempt : ℤ) = max_retries then
        ⟨Except.error (RetryError.opError e), 1, [], cb1⟩
      else
        let r := retryAux op times max_retries base_delay max_delay
          backoff_factor (attempt + 1) fuel1 (some e) cb1
        ⟨r.result, r.calls + 1,
          backoff_delay base_delay backoff_factor max_delay attempt :: r.delays,
          r.breaker⟩

/-- `retry_with_backoff` (lines 244-282).  `op i` is the outcome of the
i-th invocation of `func`; `now` is the `datetime.now()` reading for the
admission check, `times i` the one taken if attempt `i` fails. -/
def retry_with_backoff {E A : Type} (op : ℕ → Except E A) (now : ℚ)
    (times : ℕ → ℚ) (max_retries : ℤ)
    (base_delay max_delay backoff_factor : ℚ)
    (circuit_breaker : Option CircuitBreaker) : RetryResult E A :=
  match circuit_breaker with
  | some cb =>
    let c := can_execute now cb
    if c.1 then
      retryAux op times max_retries base_delay max_delay backoff_factor
        0 (max_retries + 1).toNat none (some c.2)
    else
      ⟨Except.error RetryError.circuitOpen, 0, [], some c.2⟩
  | none =>
    retryAux op times max_retries base_delay max_delay backoff_factor
      0 (max_retries + 1).toNat none none

/-- One externally visible method call on a `CircuitBreaker`, with the
`datetime.now()` reading it observes (ignored by `record_success`). -/
inductive CBOp : Type
  | canExec (now : ℚ)
  | recSuccess
  | recFailure (now : ℚ)
deriving DecidableEq, Repr

/-- Apply one method call to a breaker, keeping only the breaker state
(the boolean result of `can_execute` is dropped). -/
def applyOp (cb : CircuitBreaker) : CBOp → CircuitBreaker
  | CBOp.canExec now => (can_execute now cb).2
  | CBOp.recSuccess => record_success cb
  | CBOp.recFailure now => record_failure now cb

/-- Run a sequence of method calls, oldest first. -/
def runOps (cb : CircuitBreaker) (ops : List CBOp) : CircuitBreaker :=
  ops.foldl applyOp cb

/-- `k` consecutive `record_failure` calls at times `times 0, ..., times (k-1)`. -/
def failSeq (times : ℕ → ℚ) (k : ℕ) : List CBOp :=
  (List.range k).map (fun i => CBOp.recFailure (times i))

/-- The reachable-state invariant: away from `CLOSED`, the failure count
has reached the threshold and a failure time is recorded. -/
def CBInv (cb : CircuitBreaker) : Prop :=
  cb.state ≠ CBState.closed →
    cb.failure_threshold ≤ cb.failure_count ∧ cb.last_failure_time.isSome = true

/-! ### Helper lemmas -/

/-- A `can_execute` call that returns `false` performs no mutation. -/
lemma can_execute_false_snd (now : ℚ) (cb : CircuitBreaker)
    (h : (can_execute now cb).1 = false) : (can_execute now cb).2 = cb := by
  obtain ⟨ft, rt, fc, lft, st⟩ := cb
  cases st with
  | closed => simp [can_execute] at h
  | halfOpen => simp [can_execute] at h
  | opened =>
    cases lft with
    | none => rfl
    | some t =>
      simp only [can_execute] at h ⊢
      by_cases hc : now - t > rt
      · simp [hc] at h
      · simp [hc]

/-- `can_execute` changes at most the `state` field. -/
lemma can_execute_fields (now : ℚ) (cb : CircuitBreaker) :
    (can_execute now cb).2.failure_threshold = cb.failure_threshold
    ∧ (can_execute now cb).2.recovery_timeout = cb.recovery_timeout
    ∧ (can_execute now cb).2.failure_count = cb.failure_count
    ∧ (can_execute now cb).2.last_failure_time = cb.last_failure_time := by
  obtain ⟨ft, rt, fc, lft, st⟩ := cb
  cases st with
  | closed => exact ⟨rfl, rfl, rfl, rfl⟩
  | halfOpen => exact ⟨rfl, rfl, rfl, rfl⟩
  | opened =>
    cases lft with
    | none => exact ⟨rfl, rfl, rfl, rfl⟩
    | some t =>
      simp only [can_execute]
      by_cases hc : now - t > rt
      · simp [hc]
      · simp [hc]

/-- One-step unfolding of the retry loop when the current attempt fails. -/
lemma retryAux_succ_error {E A : Type} (op : ℕ → Except E A) (times : ℕ → ℚ)
    (mr : ℤ) (b m f : ℚ) (a fuel1 : ℕ) (le : Option E)
    (cb : Option CircuitBreaker) (e : E) (hop : op a = Except.error e) :
    retryAux op times mr b m f a (fuel1 + 1) le cb
      = if (a : ℤ) = mr then
          ⟨Except.error (RetryError.opError e), 1, [],
            Option.map (record_failure (times a)) cb⟩
        else
          ⟨(retryAux op times mr b m f (a + 1) fuel1 (some e)
              (Option.map (record_failure (times a)) cb)).result,
            (retryAux op times mr b m f (a + 1) fuel1 (some e)
              (Option.map (record_failure (times a)) cb)).calls + 1,
            backoff_delay b f m a ::
              (retryAux op times mr b m f (a + 1) fuel1 (some e)
                (Option.map (record_failure (times a)) cb)).delays,
            (retryAux op times mr b m f (a + 1) fuel1 (some e)
              (Option.map (record_failure (times a)) cb)).breaker⟩ := by
  simp only [retryAux, hop]

/-- One-step unfolding of the retry loop when the current attempt succeeds. -/
lemma retryAux_succ_ok {E A : Type} (op : ℕ → Except E A) (times : ℕ → ℚ)
    (mr : ℤ) (b m f : ℚ) (a fuel1 : ℕ) (le : Option E)
    (cb : Option CircuitBreaker) (v : A) (hop : op a = Except.ok v) :
    retryAux op times mr b m f a (fuel1 + 1) le cb
      = ⟨Except.ok v, 1, [], Option.map record_success cb⟩ := by
  simp only [retryAux, hop]

/-- The retry loop itself never produces the circuit-open error; that error
only arises from the admission check before the loop. -/
lemma retryAux_result_ne_circuitOpen {E A : Type} (op : ℕ → Except E A)
    (times : ℕ → ℚ) (mr : ℤ) (b m f : ℚ) (a fuel : ℕ) (le : Option E)
    (cb : Option CircuitBreaker) :
    (retryAux op times mr b m f a fuel le cb).result
      ≠ Except.error RetryError.circuitOpen := by
  induction fuel generalizing a le cb with
  | zero => cases le <;> simp [retryAux, raise_last]
  | succ k ih =>
    cases hop : op a with
    | ok v => simp [retryAux_succ_ok op times mr b m f a k le cb v hop]
    | error e =>
      rw [retryAux_succ_error op times mr b m f a k le cb e hop]
      by_cases ha : (a : ℤ) = mr
      · simp [ha]
      · simpa [ha] using
          ih (a + 1) (some e) (Option.map (record_failure (times a)) cb)

/-- Exact shape of the retry loop when the operation fails on every
invocation: the loop runs `fuel` times, surfaces the error of the last
attempt, and sleeps the backoff delays of attempts `a, ..., a + fuel - 2`. -/
lemma retryAux_allFail {E A : Type} (err : ℕ → E) (times : ℕ → ℚ)
    (mr : ℤ) (b m f : ℚ) (a fuel : ℕ) (le : Option E)
    (cb : Option CircuitBreaker)
    (hfuel : 1 ≤ fuel) (hsum : (a : ℤ) + fuel = mr + 1) :
    (retryAux (A := A) (fun i => Except.error (err i)) times mr b m f a fuel le cb).result
        = Except.error (RetryError.opError (err (a + fuel - 1)))
    ∧ (retryAux (A := A) (fun i => Except.error (err i)) times mr b m f a fuel le cb).calls
        = fuel
    ∧ (retryAux (A := A) (fun i => Except.error (err i)) times mr b m f a fuel le cb).delays
        = (List.range (fuel - 1)).map (fun j => backoff_delay b f m (a + j)) := by
  induction fuel generalizing a le cb with
  | zero => omega
  | succ k ih =>
    rw [retryAux_succ_error (fun i => Except.error (err i)) times mr b m f a k le cb
      (err a) rfl]
    cases k with
    | zero =>
      have ha : (a : ℤ) = mr := by omega
      simp [ha]
    | succ j =>
      have ha : ¬((a : ℤ) = mr) := by omega
      have h2 : ((a + 1 : ℕ) : ℤ) + ((j + 1 : ℕ) : ℤ) = mr + 1 := by omega
      obtain ⟨hr, hc, hd⟩ :=
        ih (a + 1) (some (err a)) (Option.map (record_failure (times a)) cb)
          (by omega) h2
      have e1 : a + 1 + (j + 1) - 1 = a + (j + 1 + 1) - 1 := by omega
      rw [e1] at hr
      have hfun : (fun j' => backoff_delay b f m (a + 1 + j'))
          = (fun j' => backoff_delay b f m (a + (j' + 1))) := by
        funext j'
        congr 1
        omega
      refine ⟨?_, ?_, ?_⟩
      · simp [ha, hr]
      · simp [ha, hc]
      · simp [ha, hd, hfun, List.range_succ_eq_map, List.map_map, Function.comp]

/-- The delays slept by the retry loop, starting at attempt `a`, are the
backoff delays of the consecutive attempts `a, a + 1, ...`. -/
lemma retryAux_delays_shape {E A : Type} (op : ℕ → Except E A)
    (times : ℕ → ℚ) (mr : ℤ) (b m f : ℚ) (a fuel : ℕ) (le : Option E)
    (cb : Option CircuitBreaker) :
    ∃ k, (retryAux op times mr b m f a fuel le cb).delays
      = (List.range k).map (fun j => backoff_delay b f m (a + j)) := by
  induction fuel generalizing a le cb with
  | zero => exact ⟨0, by simp [retryAux]⟩
  | succ k ih =>
    cases hop : op a with
    | ok v =>
      exact ⟨0, by simp [retryAux_succ_ok op times mr b m f a k le cb v hop]⟩
    | error e =>
      rw [retryAux_succ_error op times mr b m f a k le cb e hop]
      by_cases ha : (a : ℤ) = mr
      · exact ⟨0, by simp [ha]⟩
      · obtain ⟨n, hn⟩ := ih (a + 1) (some e) (Option.map (record_failure (times a)) cb)
        refine ⟨n + 1, ?_⟩
        have hfun : (fun j' => backoff_delay b f m (a + 1 + j'))
            = (fun j' => backoff_delay b f m (a + (j' + 1))) := by
          funext j'
          congr 1
          omega
        simp [ha, hn, hfun, List.range_succ_eq_map, List.map_map, Function.comp]

/-- `record_failure` always increments the count. -/
lemma record_failure_count (now : ℚ) (cb : CircuitBreaker) :
    (record_failure now cb).failure_count = cb.failure_count + 1 := by
  simp only [record_failure]
  split <;> rfl

/-- `record_failure` never changes the threshold. -/
lemma record_failure_threshold (now : ℚ) (cb : CircuitBreaker) :
    (record_failure now cb).failure_threshold = cb.failure_threshold := by
  simp only [record_failure]
  split <;> rfl

/-- `record_failure` always stamps the failure time. -/
lemma record_failure_last (now : ℚ) (cb : CircuitBreaker) :
    (record_failure now cb).last_failure_time = some now := by
  simp only [record_failure]
  split <;> rfl

/-- The state after `record_failure`: `OPEN` exactly when the incremented
count has reached the threshold, otherwise untouched. -/
lemma record_failure_state (now : ℚ) (cb : CircuitBreaker) :
    (record_failure now cb).state
      = if cb.failure_count + 1 ≥ cb.failure_threshold then CBState.opened
        else cb.state := by
  simp only [record_failure]
  split <;> rfl

/-- The fresh breaker satisfies the reachable-state invariant. -/
lemma CBInv_initial (N : ℕ) (rt : ℚ) : CBInv (initial_breaker N rt) := by
  intro h
  simp [initial_breaker] at h

/-- Every breaker method preserves the reachable-state invariant. -/
lemma CBInv_applyOp (cb : CircuitBreaker) (o : CBOp) (h : CBInv cb) :
    CBInv (applyOp cb o) := by
  cases o with
  | canExec now =>
    obtain ⟨ft, rt, fc, lft, st⟩ := cb
    cases st with
    | closed => exact h
    | halfOpen => exact h
    | opened =>
      cases lft with
      | none => exact h
      | some t =>
        intro hne
        have hold := h (by simp)
        by_cases hc : now - t > rt
        · simpa [applyOp, can_execute, hc] using hold
        · simpa [applyOp, can_execute, hc] using hold
  | recSuccess =>
    intro hne
    simp [applyOp, record_success] at hne
  | recFailure now =>
    intro hne
    have hne1 : (record_failure now cb).state ≠ CBState.closed := hne
    refine ⟨?_, ?_⟩
    · show (record_failure now cb).failure_threshold ≤ (record_failure now cb).failure_count
      rw [record_failure_threshold, record_failure_count]
      by_cases hth : cb.failure_count + 1 ≥ cb.failure_threshold
      · omega
      · have hst : (record_failure now cb).state = cb.state := by
          rw [record_failure_state, if_neg hth]
        rw [hst] at hne1
        have := (h hne1).1
        omega
    · show (record_failure now cb).last_failure_time.isSome = true
      rw [record_failure_last]
      rfl

/-- Any sequence of breaker methods preserves the reachable-state
invariant. -/
lemma CBInv_runOps (ops : List CBOp) (cb : CircuitBreaker) (h : CBInv cb) :
    CBInv (runOps cb ops) := by
  induction ops generalizing cb with
  | nil => exact h
  | cons o rest ih => exact ih (applyOp cb o) (CBInv_applyOp cb o h)

/-- State of a fresh breaker after `k` consecutive `record_failure` calls:
the count is `k`, the threshold is untouched, and the breaker is `OPEN`
exactly when at least one failure occurred and the count reached the
threshold. -/
lemma runOps_failSeq (N : ℕ) (rt : ℚ) (times : ℕ → ℚ) (k : ℕ) :
    (runOps (initial_breaker N rt) (failSeq times k)).failure_count = k
    ∧ (runOps (initial_breaker N rt) (failSeq times k)).failure_threshold = N
    ∧ (runOps (initial_breaker N rt) (failSeq times k)).state
        = (if N ≤ k ∧ 1 ≤ k then CBState.opened else CBState.closed) := by
  induction k with
  | zero =>
    refine ⟨rfl, rfl, ?_⟩
    simp [runOps, failSeq, initial_breaker]
  | succ k ih =>
    obtain ⟨h1, h2, h3⟩ := ih
    have hseq : failSeq times (k + 1)
        = failSeq times k ++ [CBOp.recFailure (times k)] := by
      simp [failSeq, List.range_succ]
    have hrun : runOps (initial_breaker N rt)
          (failSeq times k ++ [CBOp.recFailure (times k)])
        = record_failure (times k) (runOps (initial_breaker N rt) (failSeq times k)) := by
      simp [runOps, List.foldl_append, applyOp]
    rw [hseq, hrun]
    refine ⟨?_, ?_, ?_⟩
    · rw [record_failure_count, h1]
    · rw [record_failure_threshold, h2]
    · rw [record_failure_state, h1, h2]
      by_cases hth : k + 1 ≥ N
      · rw [if_pos hth, if_pos (by omega)]
      · rw [if_neg hth, h3, if_neg (by omega), if_neg (by omega)]

/-- The delays slept by a full `retry_with_backoff` call form an initial
segment of the backoff-delay sequence at indices `0, 1, 2, ...`. -/
lemma retry_delays_shape {E A : Type} (op : ℕ → Except E A) (now : ℚ)
    (times : ℕ → ℚ) (mr : ℤ) (b m f : ℚ) (cb : Option CircuitBreaker) :
    ∃ k, (retry_with_backoff op now times mr b m f cb).delays
      = (List.range k).map (fun j => backoff_delay b f m j) := by
  have hfun : (fun j => backoff_delay b f m (0 + j))
      = (fun j => backoff_delay b f m j) := by
    funext j
    rw [Nat.zero_add]
  cases cb with
  | none =>
    obtain ⟨k, hk⟩ := retryAux_delays_shape op times mr b m f 0 (mr + 1).toNat none none
    refine ⟨k, ?_⟩
    simp only [retry_with_backoff]
    rw [hk, hfun]
  | some c =>
    by_cases hce : (can_execute now c).1 = true
    · obtain ⟨k, hk⟩ := retryAux_delays_shape op times mr b m f 0 (mr + 1).toNat none
        (some (can_execute now c).2)
      refine ⟨k, ?_⟩
      simp only [retry_with_backoff, hce, if_true]
      rw [hk, hfun]
    · refine ⟨0, ?_⟩
      have hf : (can_execute now c).1 = false := by simpa using hce
      simp [retry_with_backoff, hf]

/-! ### The claims -/

/-- Claim C1: for an operation failing on every invocation and any retry
configuration with `max_retries = n ≥ 0`, `retry_with_backoff` invokes the
operation exactly `n + 1` times (attempt indices `0..n`), sleeps a backoff
delay after each of the `n` non-final failures, and surfaces the error of
the final attempt. -/
theorem claim_C1 {E A : Type} (err : ℕ → E) (n : ℕ) (now : ℚ)
    (times : ℕ → ℚ) (b m f : ℚ) :
    (retry_with_backoff (A := A) (fun i => Except.error (err i)) now times
        (n : ℤ) b m f none).calls = n + 1
    ∧ (retry_with_backoff (A := A) (fun i => Except.error (err i)) now times
        (n : ℤ) b m f none).result
      = Except.error (RetryError.opError (err n))
    ∧ (retry_with_backoff (A := A) (fun i => Except.error (err i)) now times
        (n : ℤ) b m f none).delays.length = n := by
  have hfuel : ((n : ℤ) + 1).toNat = n + 1 := by omega
  obtain ⟨hr, hc, hd⟩ := retryAux_allFail (A := A) err times (n : ℤ) b m f 0 (n + 1)
    none none (by omega) (by omega)
  refine ⟨?_, ?_, ?_⟩
  · simp only [retry_with_backoff, hfuel]
    exact hc
  · simp only [retry_with_backoff, hfuel]
    simpa using hr
  · simp only [retry_with_backoff, hfuel]
    rw [hd]
    simp

/-- Claim C4: each delay slept between attempts equals
`min(base_delay * backoff_factor ^ i, max_delay)` at the zero-based index
`i` of the attempt that just failed; for the policy `max_retries = 3`,
`base_delay = 1`, `backoff_factor = 2`, `max_delay = 5` the successive
delays are `1, 2, 4`, and the delay a hypothetical 4th retry would use is
clamped to `5` although the uncapped product is `8`. -/
theorem claim_C4 :
    (∀ (E A : Type) (op : ℕ → Except E A) (now : ℚ) (times : ℕ → ℚ)
        (mr : ℤ) (b m f : ℚ) (cb : Option CircuitBreaker),
      (retry_with_backoff op now times mr b m f cb).delays
        = (List.range (retry_with_backoff op now times mr b m f cb).delays.length).map
            (fun j => backoff_delay b f m j))
    ∧ (∀ (b f m : ℚ) (j : ℕ), backoff_delay b f m j = min (b * f ^ j) m)
    ∧ (retry_with_backoff (fun i => (Except.error i : Except ℕ ℕ)) 0 (fun _ => 0)
        3 1 5 2 none).delays = [1, 2, 4]
    ∧ backoff_delay 1 2 5 3 = 5
    ∧ (1 : ℚ) * 2 ^ 3 = 8 := by
  refine ⟨?_, fun b f m j => rfl, ?_, ?_, by norm_num⟩
  · intro E A op now times mr b m f cb
    obtain ⟨k, hk⟩ := retry_delays_shape op now times mr b m f cb
    rw [hk]
    simp
  · norm_num [retry_with_backoff, retryAux, backoff_delay]
  · norm_num [backoff_delay]

/-- Claim C7: a single `record_success` resets the count to `0` and forces
the state to `CLOSED`, whatever the prior state and count were. -/
theorem claim_C7 (cb : CircuitBreaker) :
    (record_success cb).failure_count = 0
    ∧ (record_success cb).state = CBState.closed :=
  ⟨rfl, rfl⟩

/-- Claim C3 counterexample: a breaker in `HALF_OPEN` whose count is far
below its threshold is NOT reopened by a single `record_failure` — the
code only compares the incremented count against the threshold and never
inspects the `HALF_OPEN` state, so the state stays `HALF_OPEN`. -/
theorem claim_C3_counterexample :
    (⟨5, 30, 0, none, CBState.halfOpen⟩ : CircuitBreaker).state
        = CBState.halfOpen
    ∧ (record_failure 0 ⟨5, 30, 0, none, CBState.halfOpen⟩).failure_count
        < (⟨5, 30, 0, none, CBState.halfOpen⟩ : CircuitBreaker).failure_threshold
    ∧ (record_failure 0 ⟨5, 30, 0, none, CBState.halfOpen⟩).state
        ≠ CBState.opened := by
  refine ⟨rfl, ?_, ?_⟩ <;> decide

/-- Claim C3 (amended): `record_failure` increments `failure_count` and
stamps `last_failure_time` unconditionally, and moves `state` to `OPEN`
exactly when the incremented count reaches the threshold — it never
inspects `HALF_OPEN`.  Hence a `HALF_OPEN` breaker whose count has reached
the threshold (true of every reachable `HALF_OPEN` breaker) is reopened by
a single `record_failure`. -/
theorem claim_C3 (cb : CircuitBreaker) (now : ℚ)
    (hhalf : cb.state = CBState.halfOpen)
    (hinv : cb.failure_threshold ≤ cb.failure_count) :
    (record_failure now cb).state = CBState.opened
    ∧ (record_failure now cb).failure_count = cb.failure_count + 1
    ∧ (record_failure now cb).last_failure_time = some now := by
  refine ⟨?_, record_failure_count now cb, record_failure_last now cb⟩
  rw [record_failure_state, if_pos (by omega)]

/-- Witness for C3: a reachable half-open breaker (count 3, threshold 3)
is reopened by one failure. -/
theorem claim_C3_witness :
    (record_failure 7 ⟨3, 30, 3, some 0, CBState.halfOpen⟩).state
      = CBState.opened :=
  (claim_C3 ⟨3, 30, 3, some 0, CBState.halfOpen⟩ 7 rfl (by decide)).1

/-- Claim C5: a freshly constructed breaker with threshold `N ≥ 1` stays
`CLOSED` through the first `N - 1` consecutive `record_failure` calls and
is `OPEN` immediately after the `N`-th, with no intervening
`record_success`. -/
theorem claim_C5 (N : ℕ) (hN : 1 ≤ N) (rt : ℚ) (times : ℕ → ℚ) :
    (∀ k, k < N →
      (runOps (initial_breaker N rt) (failSeq times k)).state = CBState.closed)
    ∧ (runOps (initial_breaker N rt) (failSeq times N)).state
        = CBState.opened := by
  constructor
  · intro k hk
    obtain ⟨h1, h2, h3⟩ := runOps_failSeq N rt times k
    rw [h3, if_neg (by omega)]
  · obtain ⟨h1, h2, h3⟩ := runOps_failSeq N rt times N
    rw [h3, if_pos ⟨le_refl N, hN⟩]

/-- Witness for C5: with threshold 2, one failure leaves the breaker
closed and a second one opens it. -/
theorem claim_C5_witness :
    (runOps (initial_breaker 2 30) (failSeq (fun _ => 0) 1)).state
        = CBState.closed
    ∧ (runOps (initial_breaker 2 30) (failSeq (fun _ => 0) 2)).state
        = CBState.opened :=
  ⟨(claim_C5 2 (by decide) 30 (fun _ => 0)).1 1 (by decide),
    (claim_C5 2 (by decide) 30 (fun _ => 0)).2⟩

/-- Claim C6: for a breaker in `OPEN` with `last_failure_time = t0`,
`can_execute` at any time strictly before `t0 + recovery_timeout` returns
`false` and leaves the breaker untouched, while at any time strictly after
`t0 + recovery_timeout` it returns `true` and moves the state to
`HALF_OPEN`. -/
theorem claim_C6 (cb : CircuitBreaker) (t0 : ℚ)
    (hst : cb.state = CBState.opened)
    (hlt : cb.last_failure_time = some t0) :
    (∀ now : ℚ, now < t0 + cb.recovery_timeout →
      can_execute now cb = (false, cb))
    ∧ (∀ now : ℚ, t0 + cb.recovery_timeout < now →
      (can_execute now cb).1 = true
      ∧ (can_execute now cb).2.state = CBState.halfOpen) := by
  constructor
  · intro now hnow
    have hc : ¬(now - t0 > cb.recovery_timeout) := by linarith
    simp [can_execute, hst, hlt, hc]
  · intro now hnow
    have hc : now - t0 > cb.recovery_timeout := by linarith
    constructor <;> simp [can_execute, hst, hlt, hc]

/-- Witness for C6: timeout 30, failure at time 0 — a check at time 10 is
rejected without mutation, a check at time 31 is admitted and moves the
breaker to `HALF_OPEN`. -/
theorem claim_C6_witness :
    can_execute 10 ⟨3, 30, 3, some 0, CBState.opened⟩
        = (false, ⟨3, 30, 3, some 0, CBState.opened⟩)
    ∧ (can_execute 31 ⟨3, 30, 3, some 0, CBState.opened⟩).1 = true
    ∧ (can_execute 31 ⟨3, 30, 3, some 0, CBState.opened⟩).2.state
        = CBState.halfOpen :=
  ⟨(claim_C6 ⟨3, 30, 3, some 0, CBState.opened⟩ 0 rfl rfl).1 10 (by norm_num),
    ((claim_C6 ⟨3, 30, 3, some 0, CBState.opened⟩ 0 rfl rfl).2 31 (by norm_num)).1,
    ((claim_C6 ⟨3, 30, 3, some 0, CBState.opened⟩ 0 rfl rfl).2 31 (by norm_num)).2⟩

/-- Claim C2: when a breaker is supplied and its `can_execute` says no,
`retry_with_backoff` raises the circuit-open error immediately and the
operation is invoked zero times; in particular an `OPEN` breaker whose
recovery timeout has not yet elapsed since its last failure is rejected
this way. -/
theorem claim_C2 :
    (∀ (E A : Type) (op : ℕ → Except E A) (now : ℚ) (times : ℕ → ℚ)
        (mr : ℤ) (b m f : ℚ) (cb : CircuitBreaker),
      (can_execute now cb).1 = false →
        (retry_with_backoff op now times mr b m f (some cb)).result
            = Except.error RetryError.circuitOpen
        ∧ (retry_with_backoff op now times mr b m f (some cb)).calls = 0)
    ∧ (∀ (cb : CircuitBreaker) (t0 now : ℚ),
        cb.state = CBState.opened → cb.last_failure_time = some t0 →
        now - t0 ≤ cb.recovery_timeout → (can_execute now cb).1 = false) := by
  constructor
  · intro E A op now times mr b m f cb hce
    have hre : retry_with_backoff op now times mr b m f (some cb)
        = ⟨Except.error RetryError.circuitOpen, 0, [], some (can_execute now cb).2⟩ := by
      simp [retry_with_backoff, hce]
    exact ⟨by rw [hre], by rw [hre]⟩
  · intro cb t0 now hst hlt hle
    have hc : ¬(now - t0 > cb.recovery_timeout) := by linarith
    simp [can_execute, hst, hlt, hc]

/-- Witness for C2: a rejected call invokes the operation zero times and
surfaces the circuit-open error, and an `OPEN` breaker 10s after its last
failure with a 30s timeout is rejected. -/
theorem claim_C2_witness :
    (retry_with_backoff (fun i => (Except.error i : Except ℕ ℕ)) 0 (fun _ => 0)
        3 1 10 2 (some ⟨3, 30, 3, none, CBState.opened⟩)).result
      = Except.error RetryError.circuitOpen
    ∧ (retry_with_backoff (fun i => (Except.error i : Except ℕ ℕ)) 0 (fun _ => 0)
        3 1 10 2 (some ⟨3, 30, 3, none, CBState.opened⟩)).calls = 0
    ∧ (can_execute 10 ⟨3, 30, 3, some 0, CBState.opened⟩).1 = false :=
  ⟨(claim_C2.1 ℕ ℕ (fun i => Except.error i) 0 (fun _ => 0) 3 1 10 2
      ⟨3, 30, 3, none, CBState.opened⟩ rfl).1,
    (claim_C2.1 ℕ ℕ (fun i => Except.error i) 0 (fun _ => 0) 3 1 10 2
      ⟨3, 30, 3, none, CBState.opened⟩ rfl).2,
    claim_C2.2 ⟨3, 30, 3, some 0, CBState.opened⟩ 0 10 rfl rfl (by norm_num)⟩

/-- Claim C8 counterexample: the code performs no precondition validation.
With `backoff_factor = 1` — violating the precondition
`backoff_factor > 1` — and a succeeding operation, `retry_with_backoff`
invokes the operation once and returns its value: it does not fail fast
and signals no configuration error. -/
theorem claim_C8_counterexample :
    ¬((1 : ℚ) > 1)
    ∧ (retry_with_backoff (fun _ => (Except.ok 0 : Except ℕ ℕ)) 0 (fun _ => 0)
        0 1 10 1 none).calls = 1
    ∧ (retry_with_backoff (fun _ => (Except.ok 0 : Except ℕ ℕ)) 0 (fun _ => 0)
        0 1 10 1 none).result = Except.ok 0 := by
  refine ⟨by norm_num, rfl, rfl⟩

/-- Claim C8 (amended): the only precondition violation with a fail-fast
effect is `max_retries < 0`: the attempt loop body never runs, so the
operation is invoked zero times and the call raises the error of
re-raising `last_exception = None` (a `TypeError`), distinct from any
operation error and from the circuit-open error.  Other violations
(`base_delay ≤ 0`, `backoff_factor ≤ 1`, `max_delay < base_delay`) are
not checked and do not prevent invoking the operation. -/
theorem claim_C8 {E A : Type} (op : ℕ → Except E A) (now : ℚ)
    (times : ℕ → ℚ) (mr : ℤ) (hmr : mr < 0) (b m f : ℚ) :
    (retry_with_backoff op now times mr b m f none).calls = 0
    ∧ (retry_with_backoff op now times mr b m f none).result
      = Except.error RetryError.raiseNone := by
  have hfuel : (mr + 1).toNat = 0 := by omega
  constructor <;> simp [retry_with_backoff, hfuel, retryAux, raise_last]

/-- Witness for C8: `max_retries = -1` yields zero invocations and the
re-raised-`None` error. -/
theorem claim_C8_witness :
    (retry_with_backoff (fun i => (Except.error i : Except ℕ ℕ)) 0 (fun _ => 0)
        (-1) 1 10 2 none).calls = 0
    ∧ (retry_with_backoff (fun i => (Except.error i : Except ℕ ℕ)) 0 (fun _ => 0)
        (-1) 1 10 2 none).result = Except.error RetryError.raiseNone :=
  claim_C8 (fun i => Except.error i) 0 (fun _ => 0) (-1) (by decide) 1 10 2

/-- Claim C9: for every breaker reached from a fresh one by any sequence of
`can_execute`, `record_success` and `record_failure` calls, whenever the
state is `OPEN` or `HALF_OPEN` the failure count has reached the threshold
and a failure time is recorded. -/
theorem claim_C9 (N : ℕ) (rt : ℚ) (ops : List CBOp)
    (h : (runOps (initial_breaker N rt) ops).state = CBState.opened
       ∨ (runOps (initial_breaker N rt) ops).state = CBState.halfOpen) :
    (runOps (initial_breaker N rt) ops).failure_threshold
        ≤ (runOps (initial_breaker N rt) ops).failure_count
    ∧ (runOps (initial_breaker N rt) ops).last_failure_time.isSome = true := by
  apply CBInv_runOps ops (initial_breaker N rt) (CBInv_initial N rt)
  rcases h with h | h <;> rw [h] <;> decide

/-- Witness for C9: threshold 1, one recorded failure — the breaker is
`OPEN` with count at threshold and a failure time set. -/
theorem claim_C9_witness :
    (runOps (initial_breaker 1 30) [CBOp.recFailure 0]).failure_threshold
        ≤ (runOps (initial_breaker 1 30) [CBOp.recFailure 0]).failure_count
    ∧ (runOps (initial_breaker 1 30) [CBOp.recFailure 0]).last_failure_time.isSome
        = true :=
  claim_C9 1 30 [CBOp.recFailure 0] (Or.inl (by decide))

/-- Claim C10: whenever `retry_with_backoff` fails with the circuit-open
error, the supplied breaker is returned completely unchanged — a
`can_execute` call that returns `false` performs no mutation. -/
theorem claim_C10 {E A : Type} (op : ℕ → Except E A) (now : ℚ)
    (times : ℕ → ℚ) (mr : ℤ) (b m f : ℚ) (cb : CircuitBreaker)
    (h : (retry_with_backoff op now times mr b m f (some cb)).result
        = Except.error RetryError.circuitOpen) :
    (retry_with_backoff op now times mr b m f (some cb)).breaker = some cb := by
  by_cases hce : (can_execute now cb).1 = true
  · exfalso
    have hres : (retry_with_backoff op now times mr b m f (some cb)).result
        = (retryAux op times mr b m f 0 (mr + 1).toNat none
            (some (can_execute now cb).2)).result := by
      simp [retry_with_backoff, hce]
    rw [hres] at h
    exact retryAux_result_ne_circuitOpen op times mr b m f 0 (mr + 1).toNat none
      (some (can_execute now cb).2) h
  · have hf : (can_execute now cb).1 = false := by simpa using hce
    have hsnd := can_execute_false_snd now cb hf
    simp [retry_with_backoff, hf, hsnd]

/-- Witness for C10: a rejected call leaves the breaker exactly as it
was. -/
theorem claim_C10_witness :
    (retry_with_backoff (fun i => (Except.error i : Except ℕ ℕ)) 0 (fun _ => 0)
        2 1 10 2 (some ⟨5, 60, 5, none, CBState.opened⟩)).breaker
      = some ⟨5, 60, 5, none, CBState.opened⟩ :=
  claim_C10 (fun i => Except.error i) 0 (fun _ => 0) 2 1 10 2
    ⟨5, 60, 5, none, CBState.opened⟩ rfl
